import Mathlib

/-!
Verification of the gitiles commit-log cache (`milo/git/log.go`).

The development shallowly embeds the cache's data model and the three
operations `Log` / `logReq.call` / `logReq.readCache` / `logReq.writeCache`
as executable Lean functions, and proves the stated properties about them.

Bytes are modelled as `Nat` with explicit `% 256` where the Go code does
byte arithmetic.  The cache store is a function from keys to a probe
result (miss, store error, or stored value).  The remote gitiles client
and the namespace setup are inputs of the `call` model.
-/

set_option maxHeartbeats 1000000

namespace GitLog

/-- A git commit as far as the log cache is concerned: its identifier (a
byte digest, `Commit.Id` in the proto) and the identifiers of its parents
(`Commit.Parents`).  The remaining commit metadata (author, message, tree
diff) plays no role in the cache logic. -/
structure Commit where
  id : List Nat
  parents : List (List Nat)
deriving DecidableEq, Inhabited

/-- What `memcache.Get` yields for one key: `ErrCacheMiss`, some other
store error, or the stored byte string. -/
inductive CacheResult where
  | miss : CacheResult
  | storeErr : CacheResult
  | val : List Nat → CacheResult
deriving DecidableEq

/-- A cache store state: the result a get at each key returns. -/
abbrev Cache := String → CacheResult

/-- A key/value pair handed to `memcache.Set` by the write path. -/
structure CacheItem where
  key : String
  value : List Nat
deriving DecidableEq

/-- Per-request state (struct `logReq`): repo host, project, commitish and
the minimum ancestor count `min` (documented to be in `[1..100]`). -/
structure LogReq where
  host : String
  project : String
  commitish : String
  min : Nat
deriving DecidableEq

/-- `maxDist := byte(100 - l.min)`: the distance budget of the pointer
chase.  For `min ≤ 100` no byte wrap occurs, so truncated `Nat`
subtraction is the exact value. -/
def LogReq.maxDist (l : LogReq) : Nat := 100 - l.min

/-- One character of `^[0-9a-fA-F]$`. -/
def isHexChar (c : Char) : Bool :=
  (Char.ofNat 48 ≤ c && c ≤ Char.ofNat 57) ||
  (Char.ofNat 97 ≤ c && c ≤ Char.ofNat 102) ||
  (Char.ofNat 65 ≤ c && c ≤ Char.ofNat 70)

/-- `gitHash.MatchString`: the regexp `^[0-9a-fA-F]{40}$`. -/
def isGitHash (s : String) : Bool :=
  s.length == 40 && s.toList.all isHexChar

/-- `l.commitishIsHash`, computed from the commitish by the regexp. -/
def LogReq.commitishIsHash (l : LogReq) : Bool := isGitHash l.commitish

/-- One lowercase hex digit, as produced by Go's `encoding/hex`. -/
def hexDigitChar (n : Nat) : Char :=
  if n < 10 then Char.ofNat (48 + n) else Char.ofNat (87 + n)

/-- The two hex digits of one byte (high nibble first). -/
def hexEncodeByte (b : Nat) : List Char :=
  [hexDigitChar (b / 16 % 16), hexDigitChar (b % 16)]

/-- `hex.EncodeToString`: lowercase hex of a byte string. -/
def hexEncodeToString (bs : List Nat) : String :=
  String.mk ((bs.map hexEncodeByte).flatten)

/-- `l.mkCache c commitish`: the cache key `fmt.Sprintf("%s|%s|%s", host,
project, commitish)`.  (The 12 hour expiration set there is a TTL concern
outside this embedding.) -/
def mkKey (l : LogReq) (commitish : String) : String :=
  l.host ++ "|" ++ l.project ++ "|" ++ commitish

/-- possible values for the "result" field of the `logCounter` metric. -/
def cacheHit : String := "hit"

/-- `cacheMiss` constant. -/
def cacheMiss : String := "miss"

/-- `cacheFailure` constant. -/
def cacheFailure : String := "failure-cache"

/-- `decodingFailure` constant. -/
def decodingFailure : String := "failure-decoding"

/-!
## Serialization codec

`proto.Marshal` / `proto.Unmarshal` of a `gitilespb.LogResponse` are
external library collaborators (not part of this repository).  They are
modelled by a concrete executable serializer of the commit list carried by
the response, with the round-trip property the cache relies on.  Naturals
are encoded in a self-delimiting unary form; byte strings and lists are
length-prefixed.
-/

/-- Self-delimiting encoding of a natural number. -/
def marshalNat : Nat → List Nat
  | 0 => [0]
  | n + 1 => 1 :: marshalNat n

/-- Parse a `marshalNat` prefix, returning the value and the rest. -/
def parseNat : List Nat → Option (Nat × List Nat)
  | [] => none
  | 0 :: rest => some (0, rest)
  | 1 :: rest => (parseNat rest).map (fun p => (p.1 + 1, p.2))
  | _ :: _ => none

/-- Length-prefixed encoding of a byte string. -/
def marshalBytes (bs : List Nat) : List Nat :=
  marshalNat bs.length ++ bs

/-- Parse a `marshalBytes` prefix. -/
def parseBytes (l : List Nat) : Option (List Nat × List Nat) :=
  match parseNat l with
  | none => none
  | some (n, rest) =>
    if n ≤ rest.length then some (rest.take n, rest.drop n) else none

/-- Length-prefixed encoding of a list of byte strings (the parents). -/
def marshalBytesList (ps : List (List Nat)) : List Nat :=
  marshalNat ps.length ++ (ps.map marshalBytes).flatten

/-- Parse `n` consecutive byte strings. -/
def parseBytesCount : Nat → List Nat → Option (List (List Nat) × List Nat)
  | 0, l => some ([], l)
  | n + 1, l =>
    match parseBytes l with
    | none => none
    | some (b, r) =>
      match parseBytesCount n r with
      | none => none
      | some (bs, r') => some (b :: bs, r')

/-- Encoding of one commit: its id then its parents. -/
def marshalCommit (c : Commit) : List Nat :=
  marshalBytes c.id ++ marshalBytesList c.parents

/-- Parse a `marshalCommit` prefix. -/
def parseCommit (l : List Nat) : Option (Commit × List Nat) :=
  match parseBytes l with
  | none => none
  | some (i, r) =>
    match parseNat r with
    | none => none
    | some (n, r') =>
      match parseBytesCount n r' with
      | none => none
      | some (ps, r'') => some (⟨i, ps⟩, r'')

/-- Parse `n` consecutive commits. -/
def parseCommitsCount : Nat → List Nat → Option (List Commit × List Nat)
  | 0, l => some ([], l)
  | n + 1, l =>
    match parseCommit l with
    | none => none
    | some (c, r) =>
      match parseCommitsCount n r with
      | none => none
      | some (cs, r') => some (c :: cs, r')

/-- Model of `proto.Marshal` on a `LogResponse` holding the commit list
`L` (newest first). -/
def marshalCommitList (L : List Commit) : List Nat :=
  marshalNat L.length ++ (L.map marshalCommit).flatten

/-- Model of `proto.Unmarshal` into a `LogResponse`: the whole buffer must
be consumed. -/
def unmarshalLog (l : List Nat) : Option (List Commit) :=
  match parseNat l with
  | none => none
  | some (n, rest) =>
    match parseCommitsCount n rest with
    | some (cs, []) => some cs
    | _ => none

theorem parseNat_marshalNat (n : Nat) (r : List Nat) :
    parseNat (marshalNat n ++ r) = some (n, r) := by
  induction n with
  | zero => simp [marshalNat, parseNat]
  | succ k ih => simp [marshalNat, parseNat, ih]

theorem parseBytes_marshalBytes (bs : List Nat) (r : List Nat) :
    parseBytes (marshalBytes bs ++ r) = some (bs, r) := by
  simp only [marshalBytes, List.append_assoc, parseBytes, parseNat_marshalNat]
  rw [if_pos (by simp)]
  simp

theorem parseBytesCount_marshal (ps : List (List Nat)) (r : List Nat) :
    parseBytesCount ps.length ((ps.map marshalBytes).flatten ++ r) = some (ps, r) := by
  induction ps generalizing r with
  | nil => simp [parseBytesCount]
  | cons b bs ih =>
    simp only [List.map_cons, List.flatten, List.length_cons, List.append_assoc]
    simp [parseBytesCount, parseBytes_marshalBytes, ih]

theorem parseCommit_marshalCommit (c : Commit) (r : List Nat) :
    parseCommit (marshalCommit c ++ r) = some (c, r) := by
  simp only [marshalCommit, marshalBytesList, List.append_assoc, parseCommit,
    parseBytes_marshalBytes, parseNat_marshalNat, parseBytesCount_marshal]

theorem parseCommitsCount_marshal (cs : List Commit) (r : List Nat) :
    parseCommitsCount cs.length ((cs.map marshalCommit).flatten ++ r) = some (cs, r) := by
  induction cs generalizing r with
  | nil => simp [parseCommitsCount]
  | cons c rest ih =>
    simp only [List.map_cons, List.flatten, List.length_cons, List.append_assoc]
    simp [parseCommitsCount, parseCommit_marshalCommit, ih]

/-- The marshalling round trip the cache relies on. -/
theorem unmarshalLog_marshalCommitList (L : List Commit) :
    unmarshalLog (marshalCommitList L) = some L := by
  have h := parseCommitsCount_marshal L []
  simp only [List.append_nil] at h
  simp [unmarshalLog, marshalCommitList, parseNat_marshalNat, h]

/-!
## Read path: `logReq.readCache`
-/

/-- Outcome of `readCache`: the `(cacheResult, commits, ok)` triple it
returns, or the runtime panic raised by `decoded.Log[dist:]` when the
accumulated distance exceeds the length of a decoded direct entry. -/
inductive ReadResult where
  | result (cacheResult : String) (commits : List Commit) (ok : Bool) : ReadResult
  | panicked : ReadResult
deriving DecidableEq

/-- The `for` loop of `readCache`, one fuel unit per iteration (per cache
round trip).  `none` means the fuel ran out; `readCacheLoop_isSome` below
shows fuel `l.maxDist + 1 - dist` always suffices, so the unbounded Go
loop is total and the fuel is a proof device, not a semantic change.

Branches in source order: cache miss; store error; empty value; last byte
(`meta`) `0` → decode direct entry and slice at `dist`; `meta ≥ 100` →
reserved, decoding failure; distance within budget → follow the pointer;
otherwise → miss.  `dist`, `meta` and `maxDist` are Go `byte`s, hence the
`% 256` on the accumulated distance. -/
def readCacheLoop (cache : Cache) (l : LogReq) : Nat → String → Nat → Option ReadResult
  | 0, _, _ => none
  | fuel + 1, key, dist =>
    match cache key with
    | CacheResult.miss => some (ReadResult.result cacheMiss [] false)
    | CacheResult.storeErr => some (ReadResult.result cacheFailure [] false)
    | CacheResult.val v =>
      if v.length = 0 then some (ReadResult.result decodingFailure [] false)
      else if v.getLastD 0 = 0 then
        match unmarshalLog v.dropLast with
        | none => some (ReadResult.result decodingFailure [] false)
        | some decoded =>
          if dist ≤ decoded.length then
            some (ReadResult.result cacheHit (decoded.drop dist) true)
          else
            some ReadResult.panicked
      else if 100 ≤ v.getLastD 0 then some (ReadResult.result decodingFailure [] false)
      else if (dist + v.getLastD 0) % 256 ≤ l.maxDist then
        readCacheLoop cache l fuel (mkKey l (hexEncodeToString v.dropLast))
          ((dist + v.getLastD 0) % 256)
      else some (ReadResult.result cacheMiss [] false)

/-- `l.readCache c`: run the loop from the commitish entry with distance
0.  The fuel `l.maxDist + 1` is sufficient by `readCacheLoop_isSome`, so
the `getD` default is never taken. -/
def readCache (cache : Cache) (l : LogReq) : ReadResult :=
  (readCacheLoop cache l (l.maxDist + 1) (mkKey l l.commitish) 0).getD ReadResult.panicked

/-!
## Write path: `logReq.writeCache`
-/

/-- The value an item of the batched probe `memcache.Get(c,
ancestorCaches...)` carries afterwards: the stored bytes when the get
succeeded, `nil` (here `[]`) when it missed or errored (the code calls
`SetValue(nil)` on any per-item error). -/
def probeValue (cache : Cache) (k : String) : List Nat :=
  match cache k with
  | CacheResult.val v => v
  | _ => []

/-- Number of ancestor cache entries the loop `for i := 1; i <
len(res.Log) && len(res.Log[i-1].Parents) == 1; i++` builds: indices `1`
to `chainLen L` inclusive. -/
def chainLen (L : List Commit) : Nat :=
  min (L.length - 1) ((L.takeWhile (fun c => c.parents.length == 1)).length)

/-- The cache key of the ancestor entry for log index `i`:
`l.mkCache(c, hex.EncodeToString(res.Log[i].Id))`. -/
def ancestorKey (l : LogReq) (L : List Commit) (i : Nat) : String :=
  mkKey l (hexEncodeToString ((L.getD i default).id))

/-- The pointer value written for log index `i`: `res.Log[0].Id` followed
by the distance byte `byte(i)` (the source's `byte(i + 1)` with its
0-based slice index shifted to the log index). -/
def pointerValue (L : List Commit) (i : Nat) : List Nat :=
  L.headI.id ++ [i % 256]

/-- The items `logReq.writeCache` hands to `memcache.Set`, in order: the
direct entry at the request's own key; when the commitish is not a hash
and the log is non-empty, the same direct entry keyed by `hex(L[0].Id)`;
then one pointer entry for each ancestor index `i` whose probe found
nothing better (`len(v) > 0 && v[len(v)-1] <= dist` skips).  The
`proto.Marshal` error branch is dropped: the modelled marshaller is
total. -/
def writeCacheEntries (cache : Cache) (l : LogReq) (L : List Commit) : List CacheItem :=
  let direct := marshalCommitList L ++ [0]
  let base := CacheItem.mk (mkKey l l.commitish) direct ::
    (if l.commitishIsHash = false ∧ L ≠ [] then
      [CacheItem.mk (mkKey l (hexEncodeToString L.headI.id)) direct]
    else [])
  let ptrs := (List.range' 1 (chainLen L)).filterMap (fun i =>
    let v := probeValue cache (ancestorKey l L i)
    if 0 < v.length ∧ v.getLastD 0 ≤ i % 256 then none
    else some (CacheItem.mk (ancestorKey l L i) (pointerValue L i)))
  base ++ ptrs

/-!
## `logReq.call` and `Log`
-/

/-- One increment of the `logCounter` metric with its four field values. -/
structure CounterInc where
  result : String
  host : String
  project : String
  ref : String
deriving DecidableEq

/-- What `call` produces for the caller. -/
inductive CallResult where
  | ok (commits : List Commit) : CallResult
  | error (msg : String) : CallResult
  | panicked : CallResult
deriving DecidableEq

/-- Observable effect of one `call`: the counter increments recorded, the
value/error returned, and the cache items written. -/
structure CallOutput where
  counters : List CounterInc
  result : CallResult
  written : List CacheItem
deriving DecidableEq

/-- `l.call c`.  `nsErr` is the result of `info.Namespace(c, "git-log")`
(`some e` = failure, returned before any cache access, with no counter
recorded since the `defer` is installed after this check).  `remote` is
the combined `Client(c, host)` / `g.Log(c, req)` collaborator outcome.
A read-path panic escapes `call`; the deferred counter add still runs,
with `cacheResult` left at `""`. -/
def callModel (nsErr : Option String) (cache : Cache)
    (remote : Except String (List Commit)) (l : LogReq) : CallOutput :=
  match nsErr with
  | some e => CallOutput.mk [] (CallResult.error ("could not set namespace: " ++ e)) []
  | none =>
    let ref := if l.commitishIsHash then "PINNED" else l.commitish
    match readCache cache l with
    | ReadResult.panicked =>
      CallOutput.mk [CounterInc.mk "" l.host l.project ref] CallResult.panicked []
    | ReadResult.result cr commits true =>
      CallOutput.mk [CounterInc.mk cr l.host l.project ref] (CallResult.ok commits) []
    | ReadResult.result cr _ false =>
      match remote with
      | Except.error e =>
        CallOutput.mk [CounterInc.mk cr l.host l.project ref]
          (CallResult.error ("gitiles.Log: " ++ e)) []
      | Except.ok cs =>
        CallOutput.mk [CounterInc.mk cr l.host l.project ref] (CallResult.ok cs)
          (writeCacheEntries cache l cs)

/-- `Log(c, host, project, commitish, min)`.  `min` is a Go `int`, so
`Int` here; `none` models the `panic("min cannot be > 100")`, raised
before the request is even built. -/
def LogModel (nsErr : Option String) (cache : Cache)
    (remote : Except String (List Commit))
    (host project commitish : String) (min : Int) : Option CallOutput :=
  if min ≤ 0 then
    some (callModel nsErr cache remote (LogReq.mk host project commitish 50))
  else if 100 < min then
    none
  else
    some (callModel nsErr cache remote (LogReq.mk host project commitish min.toNat))

/-!
## Concrete scenario data

Fixtures used by the closed witness and counterexample theorems below.
-/

/-- A 40-hex-character (hash-style) commitish. -/
def cexHash : String := String.mk (List.replicate 40 'a')

/-- Request for `cexHash` with the default `min = 50`. -/
def cexReq : LogReq := LogReq.mk "h" "p" cexHash 50

/-- Key of the entry the pointer below leads to. -/
def cexDirKey : String := mkKey cexReq (hexEncodeToString [187])

/-- Cache holding a distance-1 pointer at the commitish key leading to a
direct entry with zero commits. -/
def cexCache : Cache := fun k =>
  if k = mkKey cexReq cexHash then CacheResult.val [187, 1]
  else if k = cexDirKey then CacheResult.val (marshalCommitList [] ++ [0])
  else CacheResult.miss

/-- The newest commit of the witness log, single parent `[2]`. -/
def wbC0 : Commit := Commit.mk [1] [[2]]

/-- The older commit of the witness log. -/
def wbC1 : Commit := Commit.mk [2] []

/-- Another hash-style commitish. -/
def wbHash : String := String.mk (List.replicate 40 'c')

/-- Request for `wbHash` with `min = 50`. -/
def wbReq : LogReq := LogReq.mk "h" "p" wbHash 50

/-- Key of the direct entry the witness pointer leads to. -/
def wbDirKey : String := mkKey wbReq (hexEncodeToString [1])

/-- Cache with a distance-1 pointer at the commitish key to a direct
entry holding `[wbC0, wbC1]`. -/
def wbCache : Cache := fun k =>
  if k = mkKey wbReq wbHash then CacheResult.val [1, 1]
  else if k = wbDirKey then CacheResult.val (marshalCommitList [wbC0, wbC1] ++ [0])
  else CacheResult.miss

/-- Request with `min = 100`, i.e. distance budget 0. -/
def w2Req : LogReq := LogReq.mk "h" "p" "r" 100

/-- Cache with a distance-5 pointer at `w2Req`'s commitish key. -/
def w2Cache : Cache := fun k =>
  if k = mkKey w2Req "r" then CacheResult.val [9, 5] else CacheResult.miss

/-- Request with a ref-style commitish. -/
def cex3Req : LogReq := LogReq.mk "h" "p" "r" 50

/-- A two-commit log whose newest commit has a single parent. -/
def cex3L : List Commit := [Commit.mk [5] [[6]], Commit.mk [6] []]

/-- The ancestor key for index 1 of `cex3L`. -/
def cex3Key : String := ancestorKey cex3Req cex3L 1

/-- Cache holding a present-but-empty value at the ancestor key. -/
def cex3Cache : Cache := fun k =>
  if k = cex3Key then CacheResult.val [] else CacheResult.miss

/-- Cache holding a pre-existing direct entry (last byte 0) at the
request's commitish key. -/
def w10Cache : Cache := fun k =>
  if k = mkKey cex3Req "r" then CacheResult.val [7, 0] else CacheResult.miss

/-- Ref-style request used for the metric examples. -/
def cex8Req : LogReq := LogReq.mk "host1" "proj1" "refs/heads/main" 50

/-- Cache whose every get fails with a store error. -/
def cex8Cache : Cache := fun _ => CacheResult.storeErr

/-- A commit for the round-trip witness. -/
def wComm : Commit := Commit.mk [17] [[34]]

/-- Request for the round-trip witness. -/
def wReqC5 : LogReq := LogReq.mk "h" "p" "c" 50

/-- Cache with the encoded direct entry at the commitish key. -/
def wCacheC5 : Cache := fun k =>
  if k = mkKey wReqC5 "c" then CacheResult.val (marshalCommitList [wComm] ++ [0])
  else CacheResult.miss

/-!
## Loop lemmas: termination, fuel monotonicity, outcome classification
-/

theorem LogReq.maxDist_le (l : LogReq) : l.maxDist ≤ 100 := Nat.sub_le _ _

/-- Fuel `l.maxDist + 1 - dist` always suffices: every followed pointer
edge has distance at least 1 and keeps the accumulated distance within
the budget, so the Go loop terminates. -/
theorem readCacheLoop_isSome (cache : Cache) (l : LogReq) :
    ∀ (fuel : Nat) (k : String) (dist : Nat), dist ≤ l.maxDist →
      l.maxDist - dist < fuel → (readCacheLoop cache l fuel k dist).isSome = true := by
  intro fuel
  induction fuel with
  | zero => intro k dist h1 h2; omega
  | succ n ih =>
    intro k dist h1 h2
    rw [readCacheLoop]
    cases hc : cache k with
    | miss => simp
    | storeErr => simp
    | val v =>
      simp only
      by_cases hv : v.length = 0
      · simp [hv]
      · rw [if_neg hv]
        by_cases hm : v.getLastD 0 = 0
        · rw [if_pos hm]
          cases hu : unmarshalLog v.dropLast with
          | none => simp
          | some decoded =>
            simp only
            by_cases hd : dist ≤ decoded.length
            · simp [hd]
            · simp [hd]
        · rw [if_neg hm]
          by_cases hb : 100 ≤ v.getLastD 0
          · rw [if_pos hb]; simp
          · rw [if_neg hb]
            by_cases hg : (dist + v.getLastD 0) % 256 ≤ l.maxDist
            · rw [if_pos hg]
              have hmax := l.maxDist_le
              have hsum : dist + v.getLastD 0 < 256 := by omega
              have hmod : (dist + v.getLastD 0) % 256 = dist + v.getLastD 0 :=
                Nat.mod_eq_of_lt hsum
              rw [hmod] at hg ⊢
              exact ih _ _ hg (by omega)
            · rw [if_neg hg]; simp

/-- A result obtained with some fuel is stable under more fuel. -/
theorem readCacheLoop_mono (cache : Cache) (l : LogReq) :
    ∀ (fuel fuel' : Nat) (k : String) (dist : Nat) (r : ReadResult), fuel ≤ fuel' →
      readCacheLoop cache l fuel k dist = some r →
      readCacheLoop cache l fuel' k dist = some r := by
  intro fuel
  induction fuel with
  | zero => intro fuel' k dist r _ h; simp [readCacheLoop] at h
  | succ n ih =>
    intro fuel' k dist r hle h
    obtain ⟨m, rfl⟩ : ∃ m, fuel' = m + 1 := ⟨fuel' - 1, by omega⟩
    rw [readCacheLoop] at h ⊢
    cases hc : cache k with
    | miss => rw [hc] at h; exact h
    | storeErr => rw [hc] at h; exact h
    | val v =>
      rw [hc] at h
      simp only at h ⊢
      by_cases hv : v.length = 0
      · rw [if_pos hv] at h ⊢; exact h
      · rw [if_neg hv] at h ⊢
        by_cases hm : v.getLastD 0 = 0
        · rw [if_pos hm] at h ⊢; exact h
        · rw [if_neg hm] at h ⊢
          by_cases hb : 100 ≤ v.getLastD 0
          · rw [if_pos hb] at h ⊢; exact h
          · rw [if_neg hb] at h ⊢
            by_cases hg : (dist + v.getLastD 0) % 256 ≤ l.maxDist
            · rw [if_pos hg] at h ⊢
              exact ih m _ _ r (by omega) h
            · rw [if_neg hg] at h ⊢; exact h

/-- Every non-panicking loop outcome is either a hit (`ok = true`,
result `"hit"`, with the sliced commits) or a fall-through (`ok = false`,
no commits, result one of `"miss"`, `"failure-cache"`,
`"failure-decoding"`). -/
theorem readCacheLoop_classify (cache : Cache) (l : LogReq) :
    ∀ (fuel : Nat) (k : String) (dist : Nat) (cr : String) (cs : List Commit) (b : Bool),
      readCacheLoop cache l fuel k dist = some (ReadResult.result cr cs b) →
      (b = true ∧ cr = cacheHit) ∨
      (b = false ∧ cs = [] ∧ (cr = cacheMiss ∨ cr = cacheFailure ∨ cr = decodingFailure)) := by
  intro fuel
  induction fuel with
  | zero => intro k dist cr cs b h; simp [readCacheLoop] at h
  | succ n ih =>
    intro k dist cr cs b h
    rw [readCacheLoop] at h
    cases hc : cache k with
    | miss =>
      rw [hc] at h
      simp only [Option.some_inj, ReadResult.result.injEq] at h
      right; exact ⟨h.2.2.symm, h.2.1.symm, Or.inl h.1.symm⟩
    | storeErr =>
      rw [hc] at h
      simp only [Option.some_inj, ReadResult.result.injEq] at h
      right; exact ⟨h.2.2.symm, h.2.1.symm, Or.inr (Or.inl h.1.symm)⟩
    | val v =>
      rw [hc] at h
      simp only at h
      by_cases hv : v.length = 0
      · rw [if_pos hv] at h
        simp only [Option.some_inj, ReadResult.result.injEq] at h
        right; exact ⟨h.2.2.symm, h.2.1.symm, Or.inr (Or.inr h.1.symm)⟩
      · rw [if_neg hv] at h
        by_cases hm : v.getLastD 0 = 0
        · rw [if_pos hm] at h
          cases hu : unmarshalLog v.dropLast with
          | none =>
            rw [hu] at h
            simp only [Option.some_inj, ReadResult.result.injEq] at h
            right; exact ⟨h.2.2.symm, h.2.1.symm, Or.inr (Or.inr h.1.symm)⟩
          | some decoded =>
            rw [hu] at h
            simp only at h
            by_cases hd : dist ≤ decoded.length
            · rw [if_pos hd] at h
              simp only [Option.some_inj, ReadResult.result.injEq] at h
              left; exact ⟨h.2.2.symm, h.1.symm⟩
            · rw [if_neg hd] at h
              simp at h
        · rw [if_neg hm] at h
          by_cases hb : 100 ≤ v.getLastD 0
          · rw [if_pos hb] at h
            simp only [Option.some_inj, ReadResult.result.injEq] at h
            right; exact ⟨h.2.2.symm, h.2.1.symm, Or.inr (Or.inr h.1.symm)⟩
          · rw [if_neg hb] at h
            by_cases hg : (dist + v.getLastD 0) % 256 ≤ l.maxDist
            · rw [if_pos hg] at h
              exact ih _ _ cr cs b h
            · rw [if_neg hg] at h
              simp only [Option.some_inj, ReadResult.result.injEq] at h
              right; exact ⟨h.2.2.symm, h.2.1.symm, Or.inl h.1.symm⟩

/-!
## Pointer-chain resolution
-/

/-- `Chases cache l k d k' d'`: starting at cache key `k` with
accumulated distance `d`, following stored pointer values exactly as the
read loop does (non-empty value, last byte in `[1, 99]`, the grown
distance within the budget) reaches key `k'` with accumulated distance
`d'`. -/
inductive Chases (cache : Cache) (l : LogReq) : String → Nat → String → Nat → Prop where
  | refl (k : String) (d : Nat) : Chases cache l k d k d
  | step (k : String) (d : Nat) (v : List Nat) (k' : String) (d' : Nat) :
      cache k = CacheResult.val v → v ≠ [] →
      1 ≤ v.getLastD 0 → v.getLastD 0 ≤ 99 →
      d + v.getLastD 0 ≤ l.maxDist →
      Chases cache l (mkKey l (hexEncodeToString v.dropLast)) (d + v.getLastD 0) k' d' →
      Chases cache l k d k' d'

/-- Running the loop from the head of a chain produces whatever the loop
produces from the chain's end (with enough fuel). -/
theorem Chases.run {cache : Cache} {l : LogReq} {k : String} {d : Nat} {k' : String}
    {d' : Nat} (h : Chases cache l k d k' d') :
    ∀ (f : Nat) (r : ReadResult), readCacheLoop cache l f k' d' = some r →
      ∃ g, readCacheLoop cache l g k d = some r := by
  induction h with
  | refl k d => intro f r hf; exact ⟨f, hf⟩
  | step k d v k' d' hv hne h1 h99 hbud _ ih =>
    intro f r hf
    obtain ⟨g, hg⟩ := ih f r hf
    refine ⟨g + 1, ?_⟩
    rw [readCacheLoop, hv]
    simp only
    have hlen : ¬ v.length = 0 := by
      simpa [List.length_eq_zero] using hne
    rw [if_neg hlen, if_neg (by omega : ¬ v.getLastD 0 = 0),
      if_neg (by omega : ¬ 100 ≤ v.getLastD 0)]
    have hmod : (d + v.getLastD 0) % 256 = d + v.getLastD 0 :=
      Nat.mod_eq_of_lt (by have := l.maxDist_le; omega)
    rw [hmod, if_pos hbud]
    exact hg

/-- Any loop result reachable with some fuel is the value of `readCache`. -/
theorem readCache_eq_of_loop {cache : Cache} {l : LogReq} {r : ReadResult}
    (h : ∃ g, readCacheLoop cache l g (mkKey l l.commitish) 0 = some r) :
    readCache cache l = r := by
  obtain ⟨g, hg⟩ := h
  have hs := readCacheLoop_isSome cache l (l.maxDist + 1) (mkKey l l.commitish) 0
    (Nat.zero_le _) (by omega)
  obtain ⟨r0, hr0⟩ := Option.isSome_iff_exists.mp hs
  have h1 := readCacheLoop_mono cache l _ (g + (l.maxDist + 1)) _ _ _ (by omega) hg
  have h2 := readCacheLoop_mono cache l _ (g + (l.maxDist + 1)) _ _ _ (by omega) hr0
  rw [h1] at h2
  rw [readCache, hr0, Option.getD_some]
  exact (Option.some_inj.mp h2).symm

/-!
## Write-path lemmas
-/

theorem takeWhile_getD_prop {α : Type} [Inhabited α] (p : α → Bool) :
    ∀ (L : List α) (j : Nat), j < (L.takeWhile p).length → p (L.getD j default) = true := by
  intro L
  induction L with
  | nil => intro j h; simp [List.takeWhile] at h
  | cons c rest ih =>
    intro j h
    rw [List.takeWhile_cons] at h
    by_cases hp : p c = true
    · rw [if_pos hp] at h
      cases j with
      | zero => simpa using hp
      | succ m =>
        simp only [List.length_cons, Nat.succ_lt_succ_iff] at h
        simpa using ih m h
    · rw [if_neg hp] at h; simp at h

theorem chainLen_le (L : List Commit) : chainLen L ≤ L.length - 1 :=
  Nat.min_le_left _ _

/-- Every commit strictly before an index inside the ancestor chain has
exactly one parent. -/
theorem chainLen_parents {L : List Commit} {j i : Nat} (hj : j < i)
    (hi : i ≤ chainLen L) : ((L.getD j default).parents).length = 1 := by
  have h2 : i ≤ (L.takeWhile (fun c => c.parents.length == 1)).length :=
    le_trans hi (Nat.min_le_right _ _)
  have h3 := takeWhile_getD_prop (fun c => c.parents.length == 1) L j (by omega)
  simpa using h3

theorem pointerValue_getLastD (L : List Commit) (i : Nat) :
    (pointerValue L i).getLastD 0 = i % 256 := by
  rw [pointerValue, List.getLastD_concat]

/-- C3 (amended: an existing entry with an empty value is also
overwritten, see `claim3_counterexample`): the write path does not write
a pointer entry at an ancestor key whose pre-existing non-empty value has
last byte at most the new pointer's distance `i`; it writes the new
pointer entry exactly when the probe produced no bytes (key absent, probe
errored, or a pre-existing empty value) or the existing entry's last byte
is greater than `i`. -/
theorem claim3_no_regression (cache : Cache) (l : LogReq) (L : List Commit)
    (hlen : L.length ≤ 100) {i : Nat} (h1 : 1 ≤ i) (h2 : i ≤ chainLen L) :
    (CacheItem.mk (ancestorKey l L i) (pointerValue L i) ∈ writeCacheEntries cache l L) ↔
      (probeValue cache (ancestorKey l L i) = [] ∨
        i < (probeValue cache (ancestorKey l L i)).getLastD 0) := by
  have hchain : chainLen L ≤ L.length - 1 := chainLen_le L
  have hi99 : i ≤ 99 := by omega
  have himod : i % 256 = i := Nat.mod_eq_of_lt (by omega)
  rw [writeCacheEntries]
  simp only [List.mem_append, List.mem_cons, List.mem_filterMap]
  constructor
  · intro hmem
    rcases hmem with (hb | hb) | hptr
    · exfalso
      have hv : pointerValue L i = marshalCommitList L ++ [0] :=
        congrArg CacheItem.value hb
      have h0 : (pointerValue L i).getLastD 0 = 0 := by
        rw [hv]; exact List.getLastD_concat _ _ _
      rw [pointerValue_getLastD, himod] at h0
      omega
    · exfalso
      by_cases hcase : l.commitishIsHash = false ∧ L ≠ []
      · rw [if_pos hcase] at hb
        simp only [List.mem_singleton] at hb
        have hv : pointerValue L i = marshalCommitList L ++ [0] :=
          congrArg CacheItem.value hb
        have h0 : (pointerValue L i).getLastD 0 = 0 := by
          rw [hv]; exact List.getLastD_concat _ _ _
        rw [pointerValue_getLastD, himod] at h0
        omega
      · rw [if_neg hcase] at hb
        simp at hb
    · obtain ⟨a, ha, hfa⟩ := hptr
      rw [List.mem_range'] at ha
      obtain ⟨t, ht, rfl⟩ := ha
      have ha99 : 1 + 1 * t ≤ 99 := by omega
      have hamod : (1 + 1 * t) % 256 = 1 + 1 * t := Nat.mod_eq_of_lt (by omega)
      by_cases hg : 0 < (probeValue cache (ancestorKey l L (1 + 1 * t))).length ∧
          (probeValue cache (ancestorKey l L (1 + 1 * t))).getLastD 0 ≤ (1 + 1 * t) % 256
      · rw [if_pos hg] at hfa; exact absurd hfa (by simp)
      · rw [if_neg hg] at hfa
        have heq : pointerValue L (1 + 1 * t) = pointerValue L i := by
          have := congrArg CacheItem.value (Option.some_inj.mp hfa)
          exact this
        have hlast := congrArg (List.getLastD · 0) heq
        simp only [pointerValue_getLastD, hamod, himod] at hlast
        subst hlast
        rw [hamod] at hg
        push_neg at hg
        by_cases hv : probeValue cache (ancestorKey l L (1 + 1 * t)) = []
        · exact Or.inl hv
        · refine Or.inr (hg ?_)
          have : (probeValue cache (ancestorKey l L (1 + 1 * t))).length ≠ 0 := by
            simpa [List.length_eq_zero] using hv
          omega
  · intro hcond
    refine Or.inr ⟨i, List.mem_range'.mpr ⟨i - 1, by omega, by omega⟩, ?_⟩
    have hneg : ¬(0 < (probeValue cache (ancestorKey l L i)).length ∧
        (probeValue cache (ancestorKey l L i)).getLastD 0 ≤ i % 256) := by
      rw [himod]
      rcases hcond with hv | hv
      · intro hcontra
        rw [hv] at hcontra
        simp at hcontra
      · intro hcontra
        omega
    rw [if_neg hneg]

/-- C4: the write path creates a pointer entry keyed by the identifier of
`L[i]` (pointing to `L[0]` with distance `i`) only if every commit
`L[0..i-1]` preceding it has exactly one parent; the chain stops at the
first commit whose parent count differs from 1, so no pointer entry is
created for a commit reached through a merge commit. -/
theorem claim4_single_parent_chain (cache : Cache) (l : LogReq) (L : List Commit)
    (hlen : L.length ≤ 100) :
    ∀ e ∈ writeCacheEntries cache l L, 1 ≤ e.value.getLastD 0 →
      ∃ i, 1 ≤ i ∧ i ≤ chainLen L ∧ i < L.length ∧
        e.key = ancestorKey l L i ∧ e.value = L.headI.id ++ [i] ∧
        ∀ j, j < i → ((L.getD j default).parents).length = 1 := by
  intro e hmem hptr
  have hchain : chainLen L ≤ L.length - 1 := chainLen_le L
  rw [writeCacheEntries] at hmem
  simp only [List.mem_append, List.mem_cons, List.mem_filterMap] at hmem
  rcases hmem with (hb | hb) | hp
  · exfalso
    have hv : e.value = marshalCommitList L ++ [0] := congrArg CacheItem.value hb
    rw [hv, List.getLastD_concat] at hptr
    omega
  · exfalso
    by_cases hcase : l.commitishIsHash = false ∧ L ≠ []
    · rw [if_pos hcase] at hb
      simp only [List.mem_singleton] at hb
      have hv : e.value = marshalCommitList L ++ [0] := congrArg CacheItem.value hb
      rw [hv, List.getLastD_concat] at hptr
      omega
    · rw [if_neg hcase] at hb
      simp at hb
  · obtain ⟨a, ha, hfa⟩ := hp
    rw [List.mem_range'] at ha
    obtain ⟨t, ht, rfl⟩ := ha
    have ha1 : 1 ≤ 1 + 1 * t := by omega
    have ha99 : 1 + 1 * t ≤ 99 := by omega
    have hamod : (1 + 1 * t) % 256 = 1 + 1 * t := Nat.mod_eq_of_lt (by omega)
    by_cases hg : 0 < (probeValue cache (ancestorKey l L (1 + 1 * t))).length ∧
        (probeValue cache (ancestorKey l L (1 + 1 * t))).getLastD 0 ≤ (1 + 1 * t) % 256
    · rw [if_pos hg] at hfa; exact absurd hfa (by simp)
    · rw [if_neg hg] at hfa
      have he := Option.some_inj.mp hfa
      refine ⟨1 + 1 * t, ha1, by omega, by omega, ?_, ?_, ?_⟩
      · rw [← he]
      · rw [← he]
        simp only [pointerValue, hamod]
      · intro j hj
        exact chainLen_parents hj (by omega)

/-- C10: the write path never replaces an existing direct entry (a
non-empty value whose last byte is 0) with a pointer entry: the
no-regression probe's comparison treats the discriminator 0 as a distance
no larger than any candidate pointer distance, so every batch item at
that key is itself a direct entry. -/
theorem claim10_direct_preserved (cache : Cache) (l : LogReq) (L : List Commit)
    {k : String} {v : List Nat} (hk : cache k = CacheResult.val v) (hne : v ≠ [])
    (hlast : v.getLastD 0 = 0) :
    ∀ e ∈ writeCacheEntries cache l L, e.key = k →
      e.value ≠ [] ∧ e.value.getLastD 0 = 0 := by
  intro e hmem hkey
  rw [writeCacheEntries] at hmem
  simp only [List.mem_append, List.mem_cons, List.mem_filterMap] at hmem
  rcases hmem with (hb | hb) | hp
  · have hv : e.value = marshalCommitList L ++ [0] := congrArg CacheItem.value hb
    rw [hv]
    exact ⟨by simp, List.getLastD_concat _ _ _⟩
  · by_cases hcase : l.commitishIsHash = false ∧ L ≠ []
    · rw [if_pos hcase] at hb
      simp only [List.mem_singleton] at hb
      have hv : e.value = marshalCommitList L ++ [0] := congrArg CacheItem.value hb
      rw [hv]
      exact ⟨by simp, List.getLastD_concat _ _ _⟩
    · rw [if_neg hcase] at hb
      simp at hb
  · exfalso
    obtain ⟨a, _, hfa⟩ := hp
    by_cases hg : 0 < (probeValue cache (ancestorKey l L a)).length ∧
        (probeValue cache (ancestorKey l L a)).getLastD 0 ≤ a % 256
    · rw [if_pos hg] at hfa; exact absurd hfa (by simp)
    · rw [if_neg hg] at hfa
      have he := Option.some_inj.mp hfa
      have hkeq : ancestorKey l L a = k := by
        rw [← hkey, ← he]
      rw [hkeq] at hg
      have hpv : probeValue cache k = v := by
        rw [probeValue, hk]
      rw [hpv] at hg
      push_neg at hg
      have hlen0 : 0 < v.length := by
        cases v with
        | nil => exact absurd rfl hne
        | cons a b => simp
      have := hg hlen0
      omega

/-- Conversely, the value of `readCache` is reached by the loop with some
fuel. -/
theorem readCache_of_result {cache : Cache} {l : LogReq} {r : ReadResult}
    (h : readCache cache l = r) :
    ∃ g, readCacheLoop cache l g (mkKey l l.commitish) 0 = some r := by
  have hs := readCacheLoop_isSome cache l (l.maxDist + 1) (mkKey l l.commitish) 0
    (Nat.zero_le _) (by omega)
  obtain ⟨r0, hr0⟩ := Option.isSome_iff_exists.mp hs
  refine ⟨l.maxDist + 1, ?_⟩
  rw [readCache, hr0, Option.getD_some] at h
  rw [hr0, h]

/-!
## Claim theorems, counterexamples and witnesses
-/

/-- C5: encoding a commit list as a direct cache value (serialize the
list, append the 0 discriminator byte) and decoding that value on the
read path recognizes it as a direct entry (last byte 0) and yields the
identical commit list; a read that reaches such a value directly is a
hit returning the whole list. -/
theorem claim5_roundtrip (L : List Commit) :
    (marshalCommitList L ++ [0]) ≠ [] ∧
    (marshalCommitList L ++ [0]).getLastD 0 = 0 ∧
    unmarshalLog ((marshalCommitList L ++ [0]).dropLast) = some L ∧
    ∀ (cache : Cache) (l : LogReq),
      cache (mkKey l l.commitish) = CacheResult.val (marshalCommitList L ++ [0]) →
      readCache cache l = ReadResult.result cacheHit L true := by
  refine ⟨by simp, List.getLastD_concat _ _ _, ?_, ?_⟩
  · rw [List.dropLast_concat]
    exact unmarshalLog_marshalCommitList L
  · intro cache l hc
    apply readCache_eq_of_loop
    refine ⟨1, ?_⟩
    rw [readCacheLoop, hc]
    simp only
    rw [if_neg (by simp), if_pos (List.getLastD_concat _ _ _), List.dropLast_concat,
      unmarshalLog_marshalCommitList]
    simp

/-- Witness for C5 at a concrete one-commit list and cache. -/
theorem claim5_witness :
    readCache wCacheC5 wReqC5 = ReadResult.result cacheHit [wComm] true :=
  (claim5_roundtrip [wComm]).2.2.2 wCacheC5 wReqC5 (by decide)

/-- C7: for `min` in `[1, 100]` the pointer-chase loop terminates within
`100 - min` pointer-following iterations: fuel `100 - min + 1` (one unit
per loop iteration) never runs out. -/
theorem claim7_termination (cache : Cache) (l : LogReq)
    (h1 : 1 ≤ l.min) (h2 : l.min ≤ 100) :
    (readCacheLoop cache l (100 - l.min + 1) (mkKey l l.commitish) 0).isSome = true :=
  readCacheLoop_isSome cache l (100 - l.min + 1) (mkKey l l.commitish) 0 (Nat.zero_le _)
    (by unfold LogReq.maxDist; omega)

/-- Witness for C7 at a concrete cache and request. -/
theorem claim7_witness :
    (readCacheLoop wbCache wbReq (100 - wbReq.min + 1) (mkKey wbReq wbReq.commitish) 0).isSome
      = true :=
  claim7_termination wbCache wbReq (by decide) (by decide)

/-- C2: for `min` in `[1, 100]` the pointer chase keeps the accumulated
distance within the budget `100 - min`: (i) a passed guard implies the
grown distance is really at most `maxDist` (no byte wrap hides an
overflow); (ii) when following an edge would exceed the budget the loop
stops with outcome `miss`; (iii) in particular with `min = 100` any
pointer edge at the commitish key makes the request fall back to the
remote fetch result instead of using the cache. -/
theorem claim2_distance_budget (cache : Cache) (l : LogReq)
    (hm1 : 1 ≤ l.min) (hm2 : l.min ≤ 100) :
    (∀ (dist : Nat) (v : List Nat), dist ≤ l.maxDist →
      1 ≤ v.getLastD 0 → v.getLastD 0 ≤ 99 →
      (dist + v.getLastD 0) % 256 ≤ l.maxDist → dist + v.getLastD 0 ≤ l.maxDist) ∧
    (∀ (fuel : Nat) (k : String) (dist : Nat) (v : List Nat),
      dist ≤ l.maxDist → cache k = CacheResult.val v →
      1 ≤ v.getLastD 0 → v.getLastD 0 ≤ 99 → l.maxDist < dist + v.getLastD 0 →
      readCacheLoop cache l (fuel + 1) k dist = some (ReadResult.result cacheMiss [] false)) ∧
    (l.min = 100 → ∀ (v : List Nat) (cs : List Commit),
      cache (mkKey l l.commitish) = CacheResult.val v →
      1 ≤ v.getLastD 0 → v.getLastD 0 ≤ 99 →
      readCache cache l = ReadResult.result cacheMiss [] false ∧
      (callModel none cache (Except.ok cs) l).result = CallResult.ok cs) := by
  have hmax := l.maxDist_le
  have hstop : ∀ (fuel : Nat) (k : String) (dist : Nat) (v : List Nat),
      dist ≤ l.maxDist → cache k = CacheResult.val v →
      1 ≤ v.getLastD 0 → v.getLastD 0 ≤ 99 → l.maxDist < dist + v.getLastD 0 →
      readCacheLoop cache l (fuel + 1) k dist
        = some (ReadResult.result cacheMiss [] false) := by
    intro fuel k dist v hd hk h1 h99 hover
    rw [readCacheLoop, hk]
    simp only
    have hlen : ¬ v.length = 0 := by
      cases v with
      | nil => simp [List.getLastD] at h1
      | cons a b => simp
    rw [if_neg hlen, if_neg (by omega : ¬ v.getLastD 0 = 0),
      if_neg (by omega : ¬ 100 ≤ v.getLastD 0)]
    rw [if_neg]
    rw [Nat.mod_eq_of_lt (by omega : dist + v.getLastD 0 < 256)]
    omega
  refine ⟨?_, hstop, ?_⟩
  · intro dist v hd h1 h99 hg
    rwa [Nat.mod_eq_of_lt (by omega : dist + v.getLastD 0 < 256)] at hg
  · intro h100 v cs hk h1 h99
    have hmax0 : l.maxDist = 0 := by unfold LogReq.maxDist; omega
    have hrd : readCache cache l = ReadResult.result cacheMiss [] false := by
      apply readCache_eq_of_loop
      exact ⟨1, hstop 0 _ 0 v (by omega) hk h1 h99 (by omega)⟩
    refine ⟨hrd, ?_⟩
    rw [callModel]
    simp only [hrd]

/-- Witness for C2: `min = 100` and a distance-5 pointer at the commitish
key force a fall back to the freshly fetched commits. -/
theorem claim2_witness :
    readCache w2Cache w2Req = ReadResult.result cacheMiss [] false ∧
    (callModel none w2Cache (Except.ok [wbC1]) w2Req).result = CallResult.ok [wbC1] :=
  (claim2_distance_budget w2Cache w2Req (by decide) (by decide)).2.2 rfl [9, 5] [wbC1]
    (by decide) (by decide) (by decide)

/-- C1 (amended: the accumulated distance must additionally be at most
the number of commits in the direct entry; otherwise the slice
`decoded.Log[dist:]` panics rather than reporting a hit, see
`claim1_counterexample`): whenever the pointer chain starting at the
requested hash-style commitish resolves with accumulated distance `d` at
a cached direct entry (last byte 0) decoding to the commit list `L` with
`d ≤ L.length`, the read path reports outcome hit and the call returns
exactly the suffix `L.drop d`, of length `L.length - d`. -/
theorem claim1_hit_slicing (cache : Cache) (l : LogReq)
    (remote : Except String (List Commit))
    (hhash : isGitHash l.commitish = true)
    {k : String} {d : Nat} {v : List Nat} {L : List Commit}
    (hch : Chases cache l (mkKey l l.commitish) 0 k d)
    (hv : cache k = CacheResult.val v) (hne : v ≠ [])
    (hlast : v.getLastD 0 = 0)
    (hdec : unmarshalLog v.dropLast = some L)
    (hdN : d ≤ L.length) :
    readCache cache l = ReadResult.result cacheHit (L.drop d) true ∧
    (L.drop d).length = L.length - d ∧
    (callModel none cache remote l).result = CallResult.ok (L.drop d) := by
  have hstep : readCacheLoop cache l 1 k d
      = some (ReadResult.result cacheHit (L.drop d) true) := by
    rw [readCacheLoop, hv]
    simp only
    rw [if_neg (by simpa [List.length_eq_zero] using hne), if_pos hlast, hdec]
    simp only
    rw [if_pos hdN]
  have hrd : readCache cache l = ReadResult.result cacheHit (L.drop d) true :=
    readCache_eq_of_loop (hch.run 1 _ hstep)
  refine ⟨hrd, List.length_drop _ _, ?_⟩
  rw [callModel]
  simp only [hrd]

/-- Counterexample to C1 as stated: the chain from the hash-style
commitish resolves with accumulated distance 1 at a cached direct entry
holding 0 commits, yet the read path panics on the out-of-range slice
instead of reporting a hit, and the call returns nothing. -/
theorem claim1_counterexample :
    isGitHash cexReq.commitish = true ∧
    Chases cexCache cexReq (mkKey cexReq cexReq.commitish) 0 cexDirKey 1 ∧
    cexCache cexDirKey = CacheResult.val (marshalCommitList [] ++ [0]) ∧
    unmarshalLog ((marshalCommitList [] ++ [0]).dropLast) = some ([] : List Commit) ∧
    readCache cexCache cexReq = ReadResult.panicked ∧
    (callModel none cexCache (Except.ok []) cexReq).result = CallResult.panicked := by
  refine ⟨by decide, ?_, by decide, by decide, ?_, ?_⟩
  · exact Chases.step _ _ [187, 1] _ _ (by decide) (by decide) (by decide) (by decide)
      (by decide) (Chases.refl cexDirKey 1)
  · decide
  · decide

/-- Witness for the amended C1: a distance-1 pointer into a two-commit
direct entry yields a hit with the one-commit suffix. -/
theorem claim1_witness :
    readCache wbCache wbReq = ReadResult.result cacheHit ([wbC0, wbC1].drop 1) true ∧
    ([wbC0, wbC1].drop 1).length = [wbC0, wbC1].length - 1 ∧
    (callModel none wbCache (Except.ok []) wbReq).result
      = CallResult.ok ([wbC0, wbC1].drop 1) :=
  @claim1_hit_slicing wbCache wbReq (Except.ok []) (by decide)
    wbDirKey 1 (marshalCommitList [wbC0, wbC1] ++ [0]) [wbC0, wbC1]
    (Chases.step _ _ [1, 1] _ _ (by decide) (by decide) (by decide) (by decide)
      (by decide) (Chases.refl wbDirKey 1))
    (by decide) (by decide) (by decide) (by decide) (by decide)

/-- Counterexample to C3 as stated: the ancestor key holds a
present-but-empty value — the key is not absent, the probe does not
error, and no last byte of the existing entry exceeds the distance — yet
the pointer entry is written. -/
theorem claim3_counterexample :
    cex3Cache cex3Key = CacheResult.val [] ∧
    CacheItem.mk cex3Key (pointerValue cex3L 1) ∈
      writeCacheEntries cex3Cache cex3Req cex3L := by
  exact ⟨by decide, by decide⟩

/-- Witness for the amended C3: with an all-miss cache the probe yields
no bytes and the distance-1 pointer entry is written. -/
theorem claim3_witness :
    CacheItem.mk (ancestorKey cex3Req cex3L 1) (pointerValue cex3L 1) ∈
      writeCacheEntries (fun _ => CacheResult.miss) cex3Req cex3L :=
  (claim3_no_regression (fun _ => CacheResult.miss) cex3Req cex3L (by decide)
    (by decide) (by decide)).mpr (Or.inl rfl)

/-- Witness for C4: the pointer entry written for index 1 of a
two-commit single-parent log has the shape the claim demands. -/
theorem claim4_witness :
    ∃ i, 1 ≤ i ∧ i ≤ chainLen cex3L ∧ i < cex3L.length ∧
      (CacheItem.mk cex3Key (pointerValue cex3L 1)).key = ancestorKey cex3Req cex3L i ∧
      (CacheItem.mk cex3Key (pointerValue cex3L 1)).value = cex3L.headI.id ++ [i] ∧
      ∀ j, j < i → ((cex3L.getD j default).parents).length = 1 :=
  claim4_single_parent_chain cex3Cache cex3Req cex3L (by decide)
    (CacheItem.mk cex3Key (pointerValue cex3L 1)) (by decide) (by decide)

/-- Witness for C10: the batch item written at the key holding a
pre-existing direct entry is itself a direct entry (last byte 0). -/
theorem claim10_witness :
    (CacheItem.mk (mkKey cex3Req "r") (marshalCommitList cex3L ++ [0])).value.getLastD 0 = 0 :=
  (@claim10_direct_preserved w10Cache cex3Req cex3L (mkKey cex3Req "r") [7, 0]
    (by decide) (by decide) (by decide)
    (CacheItem.mk (mkKey cex3Req "r") (marshalCommitList cex3L ++ [0]))
    (by decide) rfl).2

/-- C6: cache-layer failures (miss, store error, empty value, reserved
last byte, undecodable direct value) never surface as a returned error:
every non-hit read outcome makes the call return exactly what the remote
fetch produced, an error is returned only when the remote fetch fails or
the namespace setup fails, and a namespace failure is returned before any
cache access (the output does not depend on the cache). -/
theorem claim6_error_policy (cache : Cache) (l : LogReq)
    (remote : Except String (List Commit)) :
    (∀ e, (callModel (some e) cache remote l).result =
        CallResult.error ("could not set namespace: " ++ e) ∧
      callModel (some e) cache remote l
        = callModel (some e) (fun _ => CacheResult.miss) remote l) ∧
    (∀ cr cs b, readCache cache l = ReadResult.result cr cs b →
      (b = true ∧ cr = cacheHit) ∨
      (b = false ∧ cs = [] ∧ (cr = cacheMiss ∨ cr = cacheFailure ∨ cr = decodingFailure))) ∧
    (∀ cr cs, readCache cache l = ReadResult.result cr cs false →
      (callModel none cache remote l).result =
        (match remote with
          | Except.ok fetched => CallResult.ok fetched
          | Except.error e => CallResult.error ("gitiles.Log: " ++ e))) ∧
    (∀ msg, (callModel none cache remote l).result = CallResult.error msg →
      ∃ e, remote = Except.error e) := by
  refine ⟨fun e => ⟨rfl, rfl⟩, ?_, ?_, ?_⟩
  · intro cr cs b h
    obtain ⟨g, hg⟩ := readCache_of_result h
    exact readCacheLoop_classify cache l g _ 0 cr cs b hg
  · intro cr cs h
    rw [callModel]
    simp only [h]
    cases remote with
    | ok fetched => rfl
    | error e => rfl
  · intro msg h
    rw [callModel] at h
    cases hr : readCache cache l with
    | panicked => simp only [hr] at h; simp at h
    | result cr cs b =>
      cases b with
      | true => simp only [hr] at h; simp at h
      | false =>
        simp only [hr] at h
        cases remote with
        | ok fetched => simp at h
        | error e => exact ⟨e, rfl⟩

/-- Witness for C6: a namespace failure, a remote failure after a cache
store failure, and a successful fetch after a cache store failure. -/
theorem claim6_witness :
    (callModel (some "boom") cex8Cache (Except.ok []) cex8Req).result =
      CallResult.error ("could not set namespace: " ++ "boom") ∧
    (callModel none cex8Cache (Except.error "down") cex8Req).result =
      CallResult.error ("gitiles.Log: " ++ "down") ∧
    (callModel none cex8Cache (Except.ok [wbC0]) cex8Req).result = CallResult.ok [wbC0] := by
  refine ⟨((claim6_error_policy cex8Cache cex8Req (Except.ok [])).1 "boom").1, ?_, ?_⟩
  · exact (claim6_error_policy cex8Cache cex8Req (Except.error "down")).2.2.1 cacheFailure []
      (by decide)
  · exact (claim6_error_policy cex8Cache cex8Req (Except.ok [wbC0])).2.2.1 cacheFailure []
      (by decide)

/-- C8 (amended: the recorded outcome strings are `"failure-cache"` and
`"failure-decoding"`, not `"cache-failure"` and `"decoding-failure"` as
the claim's set has them, see `claim8_counterexample`): every resolution
that completes the read path records exactly one counter increment,
tagged with the read-path outcome — one of `"hit"`, `"miss"`,
`"failure-cache"`, `"failure-decoding"` — the host, the project, and a
ref that is the constant `"PINNED"` when the commitish is a 40-hex-char
hash and the literal commitish otherwise. -/
theorem claim8_counter (cache : Cache) (l : LogReq)
    (remote : Except String (List Commit))
    (cr : String) (cs : List Commit) (b : Bool)
    (h : readCache cache l = ReadResult.result cr cs b) :
    (callModel none cache remote l).counters =
      [CounterInc.mk cr l.host l.project
        (if isGitHash l.commitish = true then "PINNED" else l.commitish)] ∧
    (cr = "hit" ∨ cr = "miss" ∨ cr = "failure-cache" ∨ cr = "failure-decoding") := by
  constructor
  · rw [callModel]
    simp only [h]
    cases b with
    | true => rfl
    | false => cases remote with
      | ok fetched => rfl
      | error e => rfl
  · obtain ⟨g, hg⟩ := readCache_of_result h
    rcases readCacheLoop_classify cache l g _ 0 cr cs b hg with ⟨-, hc⟩ | ⟨-, -, hc | hc | hc⟩
    · exact Or.inl hc
    · exact Or.inr (Or.inl hc)
    · exact Or.inr (Or.inr (Or.inl hc))
    · exact Or.inr (Or.inr (Or.inr hc))

/-- Counterexample to C8 as stated: on a cache-store failure the metric
field value is the literal `"failure-cache"`, which is not in the claim's
set `{hit, miss, cache-failure, decoding-failure}`. -/
theorem claim8_counterexample :
    (callModel none cex8Cache (Except.ok []) cex8Req).counters =
      [CounterInc.mk "failure-cache" "host1" "proj1" "refs/heads/main"] ∧
    (["hit", "miss", "cache-failure", "decoding-failure"] : List String).contains
      "failure-cache" = false := by
  exact ⟨by decide, by decide⟩

/-- Witness for the amended C8 at the cache-store-failure fixture. -/
theorem claim8_witness :
    (callModel none cex8Cache (Except.ok []) cex8Req).counters =
      [CounterInc.mk cacheFailure "host1" "proj1"
        (if isGitHash "refs/heads/main" = true then "PINNED" else "refs/heads/main")] ∧
    (cacheFailure = "hit" ∨ cacheFailure = "miss" ∨ cacheFailure = "failure-cache" ∨
      cacheFailure = "failure-decoding") :=
  claim8_counter cex8Cache cex8Req (Except.ok []) cacheFailure [] false (by decide)

/-- C9: `Log` proceeds with `min = 50` when the given `min` is at most 0,
panics before building the request — independently of namespace, cache
and remote — when `min > 100` (no error value is returned), and uses the
given `min` unchanged when it lies in `[1, 100]`. -/
theorem claim9_min_handling (nsErr : Option String) (cache : Cache)
    (remote : Except String (List Commit)) (host project commitish : String) (min : Int) :
    (min ≤ 0 → LogModel nsErr cache remote host project commitish min =
      some (callModel nsErr cache remote (LogReq.mk host project commitish 50))) ∧
    (100 < min →
      LogModel nsErr cache remote host project commitish min = none ∧
      ∀ (nsErr' : Option String) (cache' : Cache) (remote' : Except String (List Commit)),
        LogModel nsErr' cache' remote' host project commitish min = none) ∧
    (0 < min → min ≤ 100 →
      LogModel nsErr cache remote host project commitish min =
        some (callModel nsErr cache remote (LogReq.mk host project commitish min.toNat))) := by
  refine ⟨?_, ?_, ?_⟩
  · intro h
    rw [LogModel, if_pos h]
  · intro h
    have hn : ∀ (ns' : Option String) (c' : Cache) (r' : Except String (List Commit)),
        LogModel ns' c' r' host project commitish min = none := by
      intro ns' c' r'
      rw [LogModel, if_neg (by omega), if_pos h]
    exact ⟨hn nsErr cache remote, hn⟩
  · intro h1 h2
    rw [LogModel, if_neg (by omega), if_neg (by omega)]

/-- Witness for C9 at `min` values -1, 101 and 60. -/
theorem claim9_witness :
    LogModel none cex8Cache (Except.ok []) "h" "p" "r" (-1) =
      some (callModel none cex8Cache (Except.ok []) (LogReq.mk "h" "p" "r" 50)) ∧
    LogModel none cex8Cache (Except.ok []) "h" "p" "r" 101 = none ∧
    LogModel none cex8Cache (Except.ok []) "h" "p" "r" 60 =
      some (callModel none cex8Cache (Except.ok []) (LogReq.mk "h" "p" "r" 60)) := by
  refine ⟨(claim9_min_handling none cex8Cache (Except.ok []) "h" "p" "r" (-1)).1 (by decide),
    ((claim9_min_handling none cex8Cache (Except.ok []) "h" "p" "r" 101).2.1 (by decide)).1,
    ?_⟩
  exact (claim9_min_handling none cex8Cache (Except.ok []) "h" "p" "r" 60).2.2
    (by decide) (by decide)

end GitLog
